import Mathlib

/-!
# Verification of the comment-analysis stage (`3_comments_analysis.py`)

This file gives a shallow embedding of the keyword-theme aggregation and
reporting engine of the repository (stage 3, `3_comments_analysis.py`), plus
the pure core of the sentiment classifier of stage 2
(`2_process_yt_comments.py`), and proves or refutes the frozen claims about
it.

Modelling conventions:
* Python strings are Lean `String`s; `len`, slicing and `replace` of single
  characters act on the underlying `List Char` (Python `len` counts code
  points, as does `List.length` on `String.data`).
* `str.lower()` is modelled by `Char.toLower` (ASCII case mapping).  All cased
  characters occurring in the taxonomy and in the claims are basic latin;
  Arabic keywords are caseless.
* Python floats produced by the percentage / mean computations are modelled as
  exact rationals (`ℚ`); the claims under study do not depend on float
  rounding.
* A Python function that can raise is modelled with `Except String`
  (the error payload names the offending key, mirroring `KeyError`), and a
  function that can return `None` with `Option`.
* `pandas` operations are modelled by their documented behaviour:
  `DataFrame.nlargest(n, col)` returns the rows ordered by the column in
  descending order, prioritising earlier rows among ties (`keep='first'`,
  implemented with a stable mergesort), and a freshly loaded frame has the
  positional `RangeIndex 0..n-1`, which `nlargest` preserves as row labels.
-/

namespace YTC

/-- The characters for which Python's `str.isspace()` (and hence the no-argument
`str.split()` used at line 184 of `3_comments_analysis.py`) reports whitespace:
`\t \n \v \f \r`, the file/group/record/unit separators, space, NEL, NBSP and
the Unicode `Zs`/`Zl`/`Zp` space characters. -/
def pyWhitespace : List Char :=
  ['\t', '\n', '\x0b', '\x0c', '\r', '\x1c', '\x1d', '\x1e', '\x1f', ' ',
   '\x85', '\xa0', '\u1680', '\u2000', '\u2001', '\u2002', '\u2003', '\u2004',
   '\u2005', '\u2006', '\u2007', '\u2008', '\u2009', '\u200a', '\u2028',
   '\u2029', '\u202f', '\u205f', '\u3000']

/-- Python `c.isspace()` for a single character. -/
def pyIsSpace (c : Char) : Bool :=
  decide (c ∈ pyWhitespace)

/-- The twelve punctuation characters of the loop
`for punct in '.,!?;:()[]{}'` at line 180 of `3_comments_analysis.py`. -/
def punctChars : List Char :=
  ['.', ',', '!', '?', ';', ':', '(', ')', '[', ']', '{', '}']

/-- The punctuation-isolation loop (lines 180-181):
`text_lower = text_lower.replace(punct, f' {punct} ')` for each of the twelve
punctuation characters.  Each replacement target is a single character, the
twelve targets are distinct, and a replacement only inserts spaces around the
character itself, so running the twelve single-character `str.replace` calls in
sequence is the same as expanding every punctuation character of the input
once, character by character. -/
def isolatePunct (l : List Char) : List Char :=
  l.flatMap fun c => if c ∈ punctChars then [' ', c, ' '] else [c]

/-- Helper for `pySplit`: scans the text, accumulating the current word in
reverse; whitespace flushes the accumulated word (if nonempty). -/
def pySplitAux : List Char → List Char → List (List Char)
  | acc, [] => if acc = [] then [] else [acc.reverse]
  | acc, c :: cs =>
    if pyIsSpace c then
      if acc = [] then pySplitAux [] cs else acc.reverse :: pySplitAux [] cs
    else
      pySplitAux (c :: acc) cs

/-- Python's no-argument `str.split()`: split on runs of whitespace, never
producing empty words. -/
def pySplit (l : List Char) : List (List Char) :=
  pySplitAux [] l

/-- The word list computed at line 184:
`words = [w for w in text_lower.split() if w]` applied to the
punctuation-isolated, lowercased text (the comprehension's filter is redundant
since `split()` yields no empty strings, but it is kept). -/
def tokenize (text : String) : List (List Char) :=
  (pySplit (isolatePunct (text.data.map Char.toLower))).filter fun w => !w.isEmpty

/-- `contains_keywords(text, keywords)` of `3_comments_analysis.py`
(lines 175-191): lowercase the text, surround the twelve punctuation
characters with spaces, split on whitespace, and report whether some
lowercased keyword occurs verbatim as one token. -/
def contains_keywords (text : String) (keywords : List String) : Bool :=
  let text_lower := text.data.map Char.toLower
  let isolated := isolatePunct text_lower
  let words := (pySplit isolated).filter fun w => !w.isEmpty
  keywords.any fun keyword => words.contains (keyword.data.map Char.toLower)

/-- One processed comment record, as loaded by
`load_latest_processed_comments` from the enrichment output of
`2_process_yt_comments.py`.  The `sentiment` field is an open string in the
code (it is whatever `classify_sentiment` returned). -/
structure CommentRec where
  video_id : String
  author : String
  text : String
  cleaned_text : String
  likes : Nat
  published_at : String
  sentiment : String
  deriving DecidableEq

/-- The `THEMES` taxonomy of `3_comments_analysis.py` (lines 9-52), verbatim:
theme name paired with its keyword list. -/
def THEMES : List (String × List String) :=
  [("Customer Identification",
    ["passport", "id", "identification", "باسبور", "جواز", "هوية", "توثيق"]),
   ("fees",
    ["fee", "fees", "commission", "cost", "pricing", "رسوم", "عموله", "عمولة",
     "تكلفة", "مصاريف"]),
   ("withdrawal",
    ["withdraw", "withdrawal", "اسحب", "سحب"]),
   ("account_activation",
    ["activate", "activation", "تفعيل", "تنشيط"]),
   ("integration_apps",
    ["integration", "integrate", "api", "link", "connect", "الربط",
     "بوابة دفع", "ربط", "توافق", "stripe", "paypal", "shopify"]),
   ("customer_service",
    ["support", "customer service", "help", "contact", "دعم",
     "خدمة العملاء", "تواصل", "مساعدة", "التواصل", "الدعم"]),
   ("country_sudan", ["sudan", "السودان"]),
   ("country_yemen", ["yemen", "اليمن"]),
   ("country_turkey", ["turkey", "تركيا"]),
   ("country_saudi_arabia", ["saudi", "saudi arabia", "السعودية"]),
   ("country_iraq", ["iraq", "العراق"]),
   ("country_algeria", ["algeria", "الجزائر"]),
   ("country_egypt", ["egypt", "مصر"]),
   ("country_lebanon", ["lebanon", "لبنان"]),
   ("country_syria", ["syria", "سوريا"]),
   ("country_morocco", ["morocco", "المغرب"]),
   ("country_tunisia", ["tunisia", "تونس"]),
   ("country_palestine", ["palestine", "فلسطين", "gaza", "غزة"]),
   ("country_oman", ["oman", "عمان"]),
   ("country_jordan", ["jordan", "الأردن"]),
   ("country_kuwait", ["kuwait", "الكويت"]),
   ("country_bahrain", ["bahrain", "البحرين"]),
   ("country_qatar", ["qatar", "قطر"]),
   ("country_uae", ["uae", "الإمارة العربية المتحدة"]),
   ("country_bangladesh", ["bangladesh", "بنغلاديش"]),
   ("country_india", ["india", "الهند"]),
   ("country_pakistan", ["pakistan", "باكستان"]),
   ("country_nepal", ["nepal", "نيبال"]),
   ("country_afghanistan", ["afghanistan", "أفغانستان"]),
   ("country_iran", ["iran", "إيران"])]

/-- The four sentiment strings that key every `theme_sentiments[theme]`
dictionary (line 171 of `3_comments_analysis.py`). -/
def sentimentKeys : List String :=
  ["question", "positive affirmation", "neutral affirmation",
   "negative affirmation"]

/-- The per-theme sentiment tally
`{'question': 0, 'positive affirmation': 0, 'neutral affirmation': 0,
'negative affirmation': 0}`. -/
structure SentTally where
  question : Nat
  positive_affirmation : Nat
  neutral_affirmation : Nat
  negative_affirmation : Nat
  deriving DecidableEq

def SentTally.zero : SentTally := ⟨0, 0, 0, 0⟩

/-- The sum of the four tally values (`sum(theme.sentiment_tally.values())`). -/
def tallySum (t : SentTally) : Nat :=
  t.question + t.positive_affirmation + t.neutral_affirmation +
    t.negative_affirmation

/-- `theme_sentiments[theme][comment['sentiment']] += 1` (line 206): the
dictionary has exactly the four keys of `sentimentKeys`, so indexing with any
other sentiment string raises `KeyError`; `.error s` models that exception,
carrying the missing key. -/
def tallyIncr (t : SentTally) (s : String) : Except String SentTally :=
  if s = "question" then
    .ok { t with question := t.question + 1 }
  else if s = "positive affirmation" then
    .ok { t with positive_affirmation := t.positive_affirmation + 1 }
  else if s = "neutral affirmation" then
    .ok { t with neutral_affirmation := t.neutral_affirmation + 1 }
  else if s = "negative affirmation" then
    .ok { t with negative_affirmation := t.negative_affirmation + 1 }
  else
    .error s

/-- The per-theme aggregation state of `analyse_themes`:
`theme_counts[theme]`, `theme_comments[theme]` (text and likes, in input
order) and `theme_sentiments[theme]`. -/
structure ThemeAgg where
  count : Nat
  comments : List (String × Nat)
  tally : SentTally
  deriving DecidableEq

def ThemeAgg.empty : ThemeAgg := ⟨0, [], SentTally.zero⟩

/-- The body of the inner loop of `analyse_themes` (lines 198-206) for one
comment and one theme: the match is evaluated on
`f"{comment['text']} {comment['cleaned_text']}"` (line 195); on a match the
count is incremented, `{text, likes}` appended, and the sentiment tally
incremented at the record's sentiment (which may raise `KeyError`). -/
def updateTheme (c : CommentRec) (keywords : List String) (st : ThemeAgg) :
    Except String ThemeAgg :=
  if contains_keywords (c.text ++ " " ++ c.cleaned_text) keywords then
    match tallyIncr st.tally c.sentiment with
    | .ok t =>
      .ok { count := st.count + 1,
            comments := st.comments ++ [(c.text, c.likes)],
            tally := t }
    | .error e => .error e
  else
    .ok st

/-- The inner `for theme, keywords in THEMES.items()` loop of `analyse_themes`
for one comment, over the zipped taxonomy/state list; an exception aborts the
whole call. -/
def stepThemes (c : CommentRec) :
    List ((String × List String) × ThemeAgg) →
      Except String (List ((String × List String) × ThemeAgg))
  | [] => .ok []
  | p :: rest =>
    match updateTheme c p.1.2 p.2 with
    | .error e => .error e
    | .ok st =>
      match stepThemes c rest with
      | .error e => .error e
      | .ok rest' => .ok ((p.1, st) :: rest')

/-- The outer `for idx, comment in df.iterrows()` loop of `analyse_themes`
(lines 194-206). -/
def aggRecords :
    List CommentRec → List ((String × List String) × ThemeAgg) →
      Except String (List ((String × List String) × ThemeAgg))
  | [], st => .ok st
  | c :: cs, st =>
    match stepThemes c st with
    | .error e => .error e
    | .ok st' => aggRecords cs st'

/-- The zero-initialised counters of lines 169-172, one per theme. -/
def initThemesState : List ((String × List String) × ThemeAgg) :=
  THEMES.map fun tk => (tk, ThemeAgg.empty)

/-- The whole aggregation pass of `analyse_themes` over a record list. -/
def analyseThemesAgg (records : List CommentRec) :
    Except String (List ((String × List String) × ThemeAgg)) :=
  aggRecords records initThemesState

theorem tokenize_eq (text : String) :
    tokenize text
      = (pySplit (isolatePunct (text.data.map Char.toLower))).filter
          fun w => !w.isEmpty := rfl

/-- C1 first part: the matcher reports a match iff some lowercased keyword is
verbatim one of the tokens. -/
theorem contains_keywords_iff (text : String) (keywords : List String) :
    contains_keywords text keywords = true ↔
      ∃ keyword ∈ keywords, keyword.data.map Char.toLower ∈ tokenize text := by
  simp [contains_keywords, tokenize, List.any_eq_true, List.contains,
    List.elem_iff]

/-- C1: the theme matcher reports a match iff, after lowercasing the text,
isolating punctuation with surrounding whitespace and splitting on whitespace
into tokens, some lowercased keyword equals one token verbatim; keyword `"id"`
does not match `"this is valid"` but does match `"need my id please"`; and
inside `analyse_themes` matching is evaluated over the concatenation
`f"{comment['text']} {comment['cleaned_text']}"` — the per-theme state is left
unchanged exactly when that concatenation does not match. -/
theorem contains_keywords_whole_word (text : String) (keywords : List String) :
    (contains_keywords text keywords = true ↔
      ∃ keyword ∈ keywords, keyword.data.map Char.toLower ∈ tokenize text)
    ∧ contains_keywords "this is valid" ["id"] = false
    ∧ contains_keywords "need my id please" ["id"] = true
    ∧ ∀ (c : CommentRec) (kws : List String) (st : ThemeAgg),
        updateTheme c kws st = .ok st ↔
          contains_keywords (c.text ++ " " ++ c.cleaned_text) kws = false := by
  refine ⟨contains_keywords_iff text keywords, by decide, by decide, ?_⟩
  intro c kws st
  constructor
  · intro h
    rw [updateTheme] at h
    split at h
    · split at h
      · have hc := congrArg (fun x => match x with
          | Except.ok a => ThemeAgg.count a
          | Except.error _ => 0) h
        simp at hc
      · exact absurd h (by simp)
    · next hm => simpa using hm
  · intro h
    rw [updateTheme, if_neg (by simp [h])]


theorem pySplitAux_no_space (l : List Char) :
    ∀ (acc : List Char), (∀ c ∈ acc, pyIsSpace c = false) →
      ∀ w ∈ pySplitAux acc l, ∀ c ∈ w, pyIsSpace c = false := by
  induction l with
  | nil =>
    intro acc hacc w hw
    simp only [pySplitAux] at hw
    split at hw
    · simp at hw
    · simp only [List.mem_singleton] at hw
      subst hw
      intro c hc
      exact hacc c (List.mem_reverse.mp hc)
  | cons d ds ih =>
    intro acc hacc w hw
    simp only [pySplitAux] at hw
    split at hw
    · split at hw
      · exact ih [] (by simp) w hw
      · rcases List.mem_cons.mp hw with h | h
        · subst h
          intro c hc
          exact hacc c (List.mem_reverse.mp hc)
        · exact ih [] (by simp) w h
    · next hd =>
      refine ih (d :: acc) ?_ w hw
      intro c hc
      rcases List.mem_cons.mp hc with rfl | hc
      · simpa using hd
      · exact hacc c hc

theorem pySplitAux_all_glue (l : List Char) :
    ∀ acc, (∀ c ∈ l, pyIsSpace c = false) →
      pySplitAux acc l =
        if acc = [] ∧ l = [] then [] else [acc.reverse ++ l] := by
  induction l with
  | nil =>
    intro acc _
    simp only [pySplitAux]
    by_cases h : acc = []
    · simp [h]
    · simp [h]
  | cons d ds ih =>
    intro acc hl
    have hd : pyIsSpace d = false := hl d (by simp)
    simp only [pySplitAux, hd]
    rw [ih (d :: acc) (fun c hc => hl c (by simp [hc]))]
    simp

theorem isolatePunct_no_punct (l : List Char) (h : ∀ c ∈ l, c ∉ punctChars) :
    isolatePunct l = l := by
  induction l with
  | nil => rfl
  | cons d ds ih =>
    have hd : d ∉ punctChars := h d (by simp)
    simp only [isolatePunct, List.flatMap_cons, if_neg hd]
    have : ds.flatMap (fun c => if c ∈ punctChars then [' ', c, ' '] else [c])
        = isolatePunct ds := rfl
    rw [this, ih (fun c hc => h c (by simp [hc]))]
    simp

/-- C5: a keyword containing a space can never equal a whitespace-split token,
so the matcher never reports a match on it. -/
theorem multiword_keyword_never_matches (text keyword : String)
    (h : ' ' ∈ keyword.data) :
    keyword.data.map Char.toLower ∉ tokenize text ∧
      contains_keywords text [keyword] = false := by
  have hsp : ' ' ∈ keyword.data.map Char.toLower :=
    List.mem_map.mpr ⟨' ', h, by decide⟩
  have hnot : keyword.data.map Char.toLower ∉ tokenize text := by
    intro hmem
    have h1 : keyword.data.map Char.toLower ∈
        pySplit (isolatePunct (text.data.map Char.toLower)) :=
      (List.mem_filter.mp hmem).1
    have h2 := pySplitAux_no_space _ [] (by simp) _ h1 ' ' hsp
    simp [pyIsSpace, pyWhitespace] at h2
  refine ⟨hnot, ?_⟩
  cases hb : contains_keywords text [keyword] with
  | false => rfl
  | true =>
    obtain ⟨kw, hkw, hmem⟩ := (contains_keywords_iff text [keyword]).mp hb
    simp only [List.mem_singleton] at hkw
    subst hkw
    exact absurd hmem hnot

/-- `multiword_keyword_never_matches` instantiated: taxonomy phrase
`"customer service"` has a space and never matches, even a text that contains
it verbatim. -/
theorem multiword_keyword_never_matches_witness :
    (' ' ∈ ("customer service" : String).data) ∧
      contains_keywords "we love customer service" ["customer service"]
        = false :=
  ⟨by decide,
    (multiword_keyword_never_matches "we love customer service"
      "customer service" (by decide)).2⟩

theorem lower_range_glue (n : Nat) (h1 : 65 ≤ n) (h2 : n ≤ 90) :
    pyIsSpace (Char.ofNat (n + 32)) = false ∧
      Char.ofNat (n + 32) ∉ punctChars := by
  interval_cases n <;> exact ⟨by decide, by decide⟩

theorem toLower_glue (c : Char) (hs : pyIsSpace c = false)
    (hp : c ∉ punctChars) :
    pyIsSpace c.toLower = false ∧ c.toLower ∉ punctChars := by
  by_cases h : 65 ≤ c.toNat ∧ c.toNat ≤ 90
  · have hc : c.toLower = Char.ofNat (c.toNat + 32) := by
      simp only [Char.toLower]
      rw [if_pos ⟨h.1, h.2⟩]
    rw [hc]
    exact lower_range_glue c.toNat h.1 h.2
  · have hc : c.toLower = c := by
      simp only [Char.toLower]
      rw [if_neg]
      intro hcon
      exact h ⟨hcon.1, hcon.2⟩
    rw [hc]
    exact ⟨hs, hp⟩

/-- When every character of the text is neither whitespace nor one of the
twelve isolated punctuation characters, the whole text stays glued as one
token. -/
theorem tokenize_glue (text : String)
    (h : ∀ c ∈ text.data, pyIsSpace c = false ∧ c ∉ punctChars) :
    tokenize text =
      if text.data = [] then [] else [text.data.map Char.toLower] := by
  have hl : ∀ c ∈ text.data.map Char.toLower,
      pyIsSpace c = false ∧ c ∉ punctChars := by
    intro c hc
    obtain ⟨d, hd, rfl⟩ := List.mem_map.mp hc
    exact toLower_glue d (h d hd).1 (h d hd).2
  rw [tokenize_eq, isolatePunct_no_punct _ (fun c hc => (hl c hc).2)]
  rw [pySplit, pySplitAux_all_glue _ [] (fun c hc => (hl c hc).1)]
  by_cases he : text.data = []
  · simp [he]
  · have hne : text.data.map Char.toLower ≠ [] := by simpa using he
    rw [if_neg (by simp [he]), if_neg he]
    cases hmap : text.data.map Char.toLower with
    | nil => exact absurd hmap hne
    | cons a as => simp [List.filter]

/-- C10: only the twelve characters `.,!?;:()[]{}` are isolated before
tokenizing; a text made of any other non-whitespace characters stays glued as
a single token, so a keyword differing from the whole (lowercased) text never
matches it — e.g. keyword `"id"` against text `"my-id"`. -/
theorem non_isolated_chars_stay_glued (text keyword : String)
    (hglue : ∀ c ∈ text.data, pyIsSpace c = false ∧ c ∉ punctChars)
    (hne : text.data.map Char.toLower ≠ keyword.data.map Char.toLower) :
    contains_keywords text [keyword] = false := by
  cases hb : contains_keywords text [keyword] with
  | false => rfl
  | true =>
    obtain ⟨kw, hkw, hmem⟩ := (contains_keywords_iff text [keyword]).mp hb
    simp only [List.mem_singleton] at hkw
    subst hkw
    rw [tokenize_glue text hglue] at hmem
    split at hmem
    · simp at hmem
    · simp only [List.mem_singleton] at hmem
      exact absurd hmem.symm hne

/-- `non_isolated_chars_stay_glued` instantiated at the hyphenated text
`"my-id"` and keyword `"id"`. -/
theorem non_isolated_chars_stay_glued_witness :
    (∀ c ∈ ("my-id" : String).data, pyIsSpace c = false ∧ c ∉ punctChars) ∧
      contains_keywords "my-id" ["id"] = false :=
  ⟨by decide,
    non_isolated_chars_stay_glued "my-id" "id" (by decide) (by decide)⟩

/-- Python `str.strip()`: drop leading and trailing whitespace. -/
def pyStrip (s : String) : List Char :=
  ((s.data.dropWhile fun c => pyIsSpace c).reverse.dropWhile
      fun c => pyIsSpace c).reverse

/-- The pure core of `classify_sentiment` (`2_process_yt_comments.py`,
lines 27-37) when the chat-completion call succeeds with message content
`response`: the function returns
`response.choices[0].message.content.strip().lower()` unchanged — there is no
coercion into the four-value enum on this path. -/
def classify_sentiment_ok (response : String) : String :=
  String.mk ((pyStrip response).map Char.toLower)

/-- The `except` branch of `classify_sentiment` (lines 38-40): only a raised
exception yields the default `"neutral affirmation"`. -/
def classify_sentiment_failed : String := "neutral affirmation"

theorem tallyIncr_ok (t : SentTally) (s : String) (h : s ∈ sentimentKeys) :
    ∃ t', tallyIncr t s = .ok t' ∧ tallySum t' = tallySum t + 1 := by
  rcases List.mem_cons.mp h with rfl | h
  · rw [tallyIncr, if_pos rfl]
    exact ⟨_, rfl, by simp [tallySum]; omega⟩
  rcases List.mem_cons.mp h with rfl | h
  · rw [tallyIncr, if_neg (by decide), if_pos rfl]
    exact ⟨_, rfl, by simp [tallySum]; omega⟩
  rcases List.mem_cons.mp h with rfl | h
  · rw [tallyIncr, if_neg (by decide), if_neg (by decide), if_pos rfl]
    exact ⟨_, rfl, by simp [tallySum]; omega⟩
  rcases List.mem_cons.mp h with rfl | h
  · rw [tallyIncr, if_neg (by decide), if_neg (by decide), if_neg (by decide),
      if_pos rfl]
    exact ⟨_, rfl, by simp [tallySum]; omega⟩
  · exact absurd h (List.not_mem_nil s)

theorem updateTheme_ok (c : CommentRec) (kws : List String) (st : ThemeAgg)
    (h : c.sentiment ∈ sentimentKeys) :
    ∃ st', updateTheme c kws st = .ok st' ∧
      (st.count = tallySum st.tally → st'.count = tallySum st'.tally) := by
  rw [updateTheme]
  split
  · obtain ⟨t', ht, hsum⟩ := tallyIncr_ok st.tally c.sentiment h
    rw [ht]
    refine ⟨_, rfl, fun hinv => ?_⟩
    show st.count + 1 = tallySum t'
    rw [hsum, hinv]
  · exact ⟨st, rfl, id⟩

theorem stepThemes_ok (c : CommentRec) (h : c.sentiment ∈ sentimentKeys) :
    ∀ state : List ((String × List String) × ThemeAgg),
      ∃ state', stepThemes c state = .ok state' ∧
        ((∀ p ∈ state, p.2.count = tallySum p.2.tally) →
          ∀ p ∈ state', p.2.count = tallySum p.2.tally) := by
  intro state
  induction state with
  | nil => exact ⟨[], rfl, fun _ p hp => absurd hp (List.not_mem_nil p)⟩
  | cons q rest ih =>
    obtain ⟨st', hst, hinv⟩ := updateTheme_ok c q.1.2 q.2 h
    obtain ⟨rest', hrest, hrinv⟩ := ih
    refine ⟨(q.1, st') :: rest', ?_, ?_⟩
    · simp only [stepThemes, hst, hrest]
    · intro hall p hp
      rcases List.mem_cons.mp hp with rfl | hp
      · exact hinv (hall q (by simp))
      · exact hrinv (fun r hr => hall r (by simp [hr])) p hp

theorem aggRecords_ok (records : List CommentRec)
    (h : ∀ r ∈ records, r.sentiment ∈ sentimentKeys) :
    ∀ state, ∃ state', aggRecords records state = .ok state' ∧
      ((∀ p ∈ state, p.2.count = tallySum p.2.tally) →
        ∀ p ∈ state', p.2.count = tallySum p.2.tally) := by
  induction records with
  | nil => exact fun state => ⟨state, rfl, id⟩
  | cons c cs ih =>
    intro state
    obtain ⟨state1, hstep, hinv1⟩ := stepThemes_ok c (h c (by simp)) state
    obtain ⟨state', hagg, hinv2⟩ := ih (fun r hr => h r (by simp [hr])) state1
    refine ⟨state', ?_, fun hall => hinv2 (hinv1 hall)⟩
    simp only [aggRecords, hstep, hagg]

/-- C3: when every record's sentiment is one of the four enum values, the
aggregation pass of `analyse_themes` succeeds and, for every theme, the
theme's match count equals the sum of the values of its sentiment tally. -/
theorem theme_count_eq_tally_sum (records : List CommentRec)
    (h : ∀ r ∈ records, r.sentiment ∈ sentimentKeys) :
    ∃ state, analyseThemesAgg records = .ok state ∧
      ∀ p ∈ state, p.2.count = tallySum p.2.tally := by
  obtain ⟨state', hagg, hinv⟩ := aggRecords_ok records h initThemesState
  refine ⟨state', hagg, hinv ?_⟩
  intro p hp
  obtain ⟨tk, _, rfl⟩ := List.mem_map.mp hp
  rfl

/-- A record with an in-enum sentiment whose text matches the
`Customer Identification` and `fees` themes. -/
def recAggExample : CommentRec :=
  { video_id := "v1", author := "a", text := "What is the passport fee?",
    cleaned_text := "What is the passport fee?", likes := 3,
    published_at := "2024-01-01T00:00:00Z", sentiment := "question" }

/-- `theme_count_eq_tally_sum` instantiated at a concrete one-record input. -/
theorem theme_count_eq_tally_sum_witness :
    (∀ r ∈ [recAggExample], r.sentiment ∈ sentimentKeys) ∧
      ∃ state, analyseThemesAgg [recAggExample] = .ok state ∧
        ∀ p ∈ state, p.2.count = tallySum p.2.tally :=
  ⟨by decide, theme_count_eq_tally_sum [recAggExample] (by decide)⟩

/-- Line 249 / line 299: `clean_text = comment['text'].replace('\n', ' ')` —
a single-character replacement, i.e. a character map. -/
def replace_newlines (s : String) : List Char :=
  s.data.map fun c => if c = '\n' then ' ' else c

/-- Lines 249-251 / 299-301 of `3_comments_analysis.py`: strip newlines and,
when the result is longer than 200 characters, keep the first 197 characters
and append `"..."`. -/
def clean_comment_text (s : String) : String :=
  let clean_text := replace_newlines s
  if clean_text.length > 200 then String.mk (clean_text.take 197 ++ "...".data)
  else String.mk clean_text

/-- Insert `a` into a list sorted by the total preorder "`le x y` = `x` may
come before `y`": `a` goes in front of the first element it may precede.
Structural recursion, so concrete runs reduce inside the kernel. -/
def insertDesc {α : Type} (le : α → α → Bool) (a : α) : List α → List α
  | [] => [a]
  | b :: bs => if le a b then a :: b :: bs else b :: insertDesc le a bs

/-- Insertion sort with `insertDesc`.  Elements are inserted back-to-front,
and an element is placed in front of every element it may precede, so for
`le a b = (key b ≤ key a)` this computes exactly the stable
descending-by-key order of Python's `sorted(..., reverse=True)` (Timsort is
stable and `reverse=True` does not reorder equal keys) and of pandas'
`nlargest` (`keep='first'`, implemented with a stable mergesort). -/
def sortDesc {α : Type} (le : α → α → Bool) : List α → List α
  | [] => []
  | a :: as => insertDesc le a (sortDesc le as)

/-- Python `sorted(..., key=lambda x: x['likes'], reverse=True)` (line 245):
the stable descending sort of the `(text, likes)` pairs. -/
def sortByLikesDesc (l : List (String × Nat)) : List (String × Nat) :=
  sortDesc (fun a b => decide (b.2 ≤ a.2)) l

/-- The same stable descending sort for the merged
`country_specific_comments` list of `(country, text, likes)` tuples
(line 295). -/
def sortCountryByLikesDesc (l : List (String × String × Nat)) :
    List (String × String × Nat) :=
  sortDesc (fun a b => decide (b.2.2 ≤ a.2.2)) l

/-- A Python scalar division `a / b`: raises `ZeroDivisionError` when
`b = 0`; the float value is modelled as the exact rational. -/
def pyDivQ (a b : ℚ) : Except String ℚ :=
  if b = 0 then .error "ZeroDivisionError" else .ok (a / b)

/-- One service theme's rendered block (lines 225-253), at the level of its
content: theme key, comma-joined keyword list, count, percentage, sentiment
tally, and the cleaned comment texts ordered by descending likes (empty when
the count is zero, since the comment list is only rendered then). -/
structure ServiceThemeReport where
  theme : String
  keywords_str : String
  count : Nat
  percentage : ℚ
  tally : SentTally
  comment_lines : List String
  deriving DecidableEq

/-- One non-zero country theme's rendered statistics line (lines 268-277). -/
structure CountryStat where
  theme : String
  count : Nat
  percentage : ℚ
  tally : SentTally
  deriving DecidableEq

/-- The content of the themes section: service blocks in taxonomy order,
non-zero country statistics by descending count, the grand total of country
mentions, and the merged country comment list as
`(country theme key, cleaned text)` pairs. -/
structure ThemesReport where
  total_comments : Nat
  service : List ServiceThemeReport
  countries : List CountryStat
  total_country_mentions : Nat
  country_comment_lines : List (String × String)
  deriving DecidableEq

def renderServiceTheme (total : Nat)
    (p : (String × List String) × ThemeAgg) :
    Except String ServiceThemeReport :=
  match pyDivQ (p.2.count : ℚ) (total : ℚ) with
  | .error e => .error e
  | .ok q =>
    .ok { theme := p.1.1,
          keywords_str := String.intercalate ", " p.1.2,
          count := p.2.count,
          percentage := q * 100,
          tally := p.2.tally,
          comment_lines :=
            if p.2.count > 0 then
              (sortByLikesDesc p.2.comments).map fun cm =>
                clean_comment_text cm.1
            else [] }

def renderCountry (total : Nat) (p : (String × List String) × ThemeAgg) :
    Except String CountryStat :=
  match pyDivQ (p.2.count : ℚ) (total : ℚ) with
  | .error e => .error e
  | .ok q =>
    .ok { theme := p.1.1, count := p.2.count, percentage := q * 100,
          tally := p.2.tally }

/-- The rendering part of `analyse_themes` (lines 208-306) at the level of the
report's content.  Presentation-only transformations are omitted: the
`.title()`/prefix-stripping display names (raw theme keys are kept), the
f-string layout, and the `:.2f` float formatting (exact rationals are kept).
The scalar percentage divisions `count/total_comments*100` (lines 210 and 290)
are modelled with `pyDivQ` because they would raise `ZeroDivisionError` for an
empty frame.  Themes are split by the `country_` prefix (lines 213-214),
non-zero countries are sorted by descending count with Python's stable sort
(line 266), and the merged per-country comment list is built in that sorted
order (lines 280-286) before being sorted by descending likes (line 295). -/
def renderThemes (total : Nat)
    (state : List ((String × List String) × ThemeAgg)) :
    Except String ThemesReport := do
  let service := state.filter fun p => !(p.1.1.startsWith "country_")
  let country := state.filter fun p => p.1.1.startsWith "country_"
  let serviceReports ← service.mapM (renderServiceTheme total)
  let non_zero := country.filter fun p => p.2.count > 0
  let sorted_non_zero :=
    sortDesc (fun a b => decide (b.2.count ≤ a.2.count)) non_zero
  let countryStats ← sorted_non_zero.mapM (renderCountry total)
  let total_country_mentions : Nat :=
    (sorted_non_zero.map fun p => p.2.count).sum
  let country_specific_comments := sorted_non_zero.flatMap fun p =>
    p.2.comments.map fun cm => (p.1.1, cm.1, cm.2)
  let country_comment_lines :=
    if total_country_mentions > 0 then
      (sortCountryByLikesDesc country_specific_comments).map fun cm =>
        (cm.1, clean_comment_text cm.2.1)
    else []
  pure { total_comments := total, service := serviceReports,
         countries := countryStats,
         total_country_mentions := total_country_mentions,
         country_comment_lines := country_comment_lines }

/-- `analyse_themes(df)` (lines 163-306): `None` — the "no data" indicator —
for a missing or empty frame (checked first, lines 165-166), otherwise the
aggregation pass followed by rendering; a `KeyError` (out-of-enum sentiment,
line 206) or `ZeroDivisionError` escapes as `.error`. -/
def analyse_themes (df : Option (List CommentRec)) :
    Except String (Option ThemesReport) :=
  match df with
  | none => .ok none
  | some records =>
    if records.isEmpty then .ok none
    else
      match analyseThemesAgg records with
      | .error e => .error e
      | .ok state =>
        match renderThemes records.length state with
        | .error e => .error e
        | .ok rep => .ok (some rep)

/-- The content of the sentiment summary (lines 145-160). -/
structure SentimentReport where
  total_comments : Nat
  question_count : Nat
  positive_count : Nat
  neutral_count : Nat
  negative_count : Nat
  question_pct : ℚ
  positive_pct : ℚ
  neutral_pct : ℚ
  negative_pct : ℚ
  average_likes : ℚ
  deriving DecidableEq

/-- `df['sentiment'].value_counts().get(s, 0)` (lines 151-154): the number of
records whose sentiment equals `s`. -/
def sentimentCount (records : List CommentRec) (s : String) : Nat :=
  records.countP fun r => r.sentiment == s

/-- `analyse_sentiment_distribution(df)` (lines 132-161) at the level of the
report's content: `None` — the "no data" indicator — for a missing or empty
frame (checked first, lines 134-135), otherwise the four counts and
percentages read with `.get(key, 0)` and the mean likes.  The pandas Series
division `sentiment_counts / total_comments * 100` and `.mean()` do not raise
on empty data (they produce inf/NaN), and the guard guarantees
`total_comments > 0` anyway, so plain rational division is used; `.round(2)`
and `:.5f` are float presentation and kept exact.  The
`Most Common Sentiment` line (`sentiment_counts.index[0]`, line 158) is not
modelled: among tied counts its winner depends on pandas' internal hash-table
iteration order inside `value_counts`, which the repository source does not
determine. -/
def analyse_sentiment_distribution (df : Option (List CommentRec)) :
    Option SentimentReport :=
  match df with
  | none => none
  | some records =>
    if records.isEmpty then none
    else
      let total : Nat := records.length
      some { total_comments := total,
             question_count := sentimentCount records "question",
             positive_count := sentimentCount records "positive affirmation",
             neutral_count := sentimentCount records "neutral affirmation",
             negative_count := sentimentCount records "negative affirmation",
             question_pct :=
               (sentimentCount records "question" : ℚ) / total * 100,
             positive_pct :=
               (sentimentCount records "positive affirmation" : ℚ) / total
                 * 100,
             neutral_pct :=
               (sentimentCount records "neutral affirmation" : ℚ) / total
                 * 100,
             negative_pct :=
               (sentimentCount records "negative affirmation" : ℚ) / total
                 * 100,
             average_likes :=
               ((records.map fun r => r.likes).sum : ℚ) / total }

/-- The comparison realised by `df.nlargest(top_n, 'likes')` on
index-annotated rows: pandas documents `nlargest` as ordering rows by the
column in descending order with `keep='first'` prioritising earlier rows, and
implements it with a stable mergesort; over rows annotated with their
distinct positional indices that stable descending order is exactly this
lexicographic comparison (likes descending, then index ascending). -/
def nlargestLE (a b : Nat × CommentRec) : Bool :=
  decide (b.2.likes < a.2.likes ∨ (a.2.likes = b.2.likes ∧ a.1 ≤ b.1))

/-- `df.nlargest(top_n, 'likes')` (line 101), keeping the original
`RangeIndex` labels of the rows. -/
def nlargestByLikes (n : Nat) (rows : List (Nat × CommentRec)) :
    List (Nat × CommentRec) :=
  (sortDesc nlargestLE rows).take n

/-- `analyse_most_liked_comments(df, top_n)` (lines 95-130) at the level of
the report's content: `None` — the "no data" indicator — for a missing or
empty frame (checked first, lines 97-98), otherwise one entry per rendered
comment block, as the triple of the 1-based rank `#{i}` (the loop counter,
lines 109-111), the rendered identifier `ID:{idx + 1}` (line 114, where `idx`
is the row's DataFrame index, i.e. its 0-based original input position), and
the record whose author, likes, timestamp, both texts and sentiment the block
prints in full. -/
def analyse_most_liked_comments (df : Option (List CommentRec))
    (top_n : Nat) : Option (List (Nat × Nat × CommentRec)) :=
  match df with
  | none => none
  | some records =>
    if records.isEmpty then none
    else
      let top_liked := nlargestByLikes top_n records.enum
      some (top_liked.enum.map fun q => (q.1 + 1, q.2.1 + 1, q.2.2))

/-- C4: for a null or an empty record collection each of the three report
sections returns the "no data" indicator `None`, the emptiness check running
before any arithmetic; in particular `analyse_themes` returns `.ok none` and
not the `.error "ZeroDivisionError"` its percentage division would produce. -/
theorem empty_input_no_data :
    analyse_sentiment_distribution none = none ∧
      analyse_sentiment_distribution (some []) = none ∧
      analyse_themes none = Except.ok none ∧
      analyse_themes (some []) = Except.ok none ∧
      analyse_most_liked_comments none 10 = none ∧
      analyse_most_liked_comments (some []) 10 = none :=
  ⟨rfl, rfl, rfl, rfl, rfl, rfl⟩

/-- A record whose sentiment is the out-of-enum string `"mixed"` and whose
text matches the `Customer Identification` theme. -/
def recMixed : CommentRec :=
  { video_id := "v1", author := "b", text := "please check my passport",
    cleaned_text := "please check my passport", likes := 0,
    published_at := "2024-01-02T00:00:00Z", sentiment := "mixed" }

/-- C2 fails on the code: the success path of `classify_sentiment` returns
the lowered model output verbatim (`"Mixed"` becomes `"mixed"`, which is not
one of the four enum values — only the `except` branch substitutes
`"neutral affirmation"`), and `analyse_themes` then raises `KeyError` at
`theme_sentiments[theme][comment['sentiment']] += 1` as soon as such a record
matches any theme, instead of coercing the sentiment. -/
theorem out_of_enum_sentiment_raises :
    classify_sentiment_ok "Mixed" = "mixed" ∧
      "mixed" ∉ sentimentKeys ∧
      analyse_themes (some [recMixed]) = .error "mixed" := by
  refine ⟨rfl, by decide, rfl⟩

theorem newline_not_mem_replace (s : String) : '\n' ∉ replace_newlines s := by
  intro h
  obtain ⟨d, _, heq⟩ := List.mem_map.mp h
  by_cases hd : d = '\n'
  · rw [if_pos hd] at heq
    exact absurd heq (by decide)
  · rw [if_neg hd] at heq
    exact hd heq

/-- C9: every comment rendered in a theme comment list has its newlines
replaced by spaces; a text whose cleaned form is at most 200 characters is
rendered as that cleaned form, and one whose cleaned form exceeds 200
characters is rendered as exactly 200 characters — the first 197 cleaned
characters followed by `"..."`. -/
theorem theme_comment_truncation :
    (∀ s : String, '\n' ∉ (clean_comment_text s).data) ∧
      (∀ s : String, (replace_newlines s).length ≤ 200 →
        (clean_comment_text s).data = replace_newlines s) ∧
      ∀ s : String, 200 < (replace_newlines s).length →
        (clean_comment_text s).data.length = 200 ∧
          (clean_comment_text s).data.take 197
            = (replace_newlines s).take 197 ∧
          (clean_comment_text s).data.drop 197 = ['.', '.', '.'] := by
  refine ⟨?_, ?_, ?_⟩
  · intro s h
    simp only [clean_comment_text] at h
    split at h
    · rcases List.mem_append.mp h with h | h
      · exact newline_not_mem_replace s (List.mem_of_mem_take h)
      · simp at h
    · exact newline_not_mem_replace s h
  · intro s h
    simp only [clean_comment_text]
    rw [if_neg (by omega)]
  · intro s h
    simp only [clean_comment_text]
    rw [if_pos h]
    have h197 : ((replace_newlines s).take 197).length = 197 := by
      rw [List.length_take]
      omega
    refine ⟨?_, ?_, ?_⟩
    · show ((replace_newlines s).take 197 ++ "...".data).length = 200
      rw [List.length_append, h197]
      rfl
    · show ((replace_newlines s).take 197 ++ "...".data).take 197 = _
      rw [List.take_left' h197]
    · show ((replace_newlines s).take 197 ++ "...".data).drop 197 = _
      rw [List.drop_left' h197]

/-- A 250-character comment text. -/
def longText : String := String.mk (List.replicate 250 'a')

set_option maxRecDepth 4000 in
/-- `theme_comment_truncation` instantiated at the 250-character text: the
rendered line is exactly 200 characters and ends in `"..."`. -/
theorem theme_comment_truncation_witness :
    (200 < (replace_newlines longText).length) ∧
      (clean_comment_text longText).data.length = 200 ∧
        (clean_comment_text longText).data.take 197
          = (replace_newlines longText).take 197 ∧
        (clean_comment_text longText).data.drop 197 = ['.', '.', '.'] :=
  ⟨by decide, theme_comment_truncation.2.2 longText (by decide)⟩

theorem mem_insertDesc {α : Type} (le : α → α → Bool) (a x : α)
    (l : List α) : x ∈ insertDesc le a l ↔ x = a ∨ x ∈ l := by
  induction l with
  | nil => simp [insertDesc]
  | cons b bs ih =>
    rw [insertDesc]
    split
    · simp
    · simp only [List.mem_cons, ih]
      tauto

theorem insertDesc_perm {α : Type} (le : α → α → Bool) (a : α)
    (l : List α) : (insertDesc le a l).Perm (a :: l) := by
  induction l with
  | nil => exact List.Perm.refl _
  | cons b bs ih =>
    rw [insertDesc]
    split
    · exact List.Perm.refl _
    · exact (ih.cons b).trans (List.Perm.swap a b bs)

theorem sortDesc_perm {α : Type} (le : α → α → Bool) (l : List α) :
    (sortDesc le l).Perm l := by
  induction l with
  | nil => exact List.Perm.refl _
  | cons a as ih => exact (insertDesc_perm le a (sortDesc le as)).trans (ih.cons a)

theorem pairwise_insertDesc {α : Type} (le : α → α → Bool)
    (htrans : ∀ a b c, le a b = true → le b c = true → le a c = true)
    (htot : ∀ a b, le a b = false → le b a = true)
    (a : α) (l : List α) (h : l.Pairwise fun x y => le x y = true) :
    (insertDesc le a l).Pairwise fun x y => le x y = true := by
  induction l with
  | nil => simp [insertDesc]
  | cons b bs ih =>
    rw [insertDesc]
    rcases List.pairwise_cons.mp h with ⟨hb, hbs⟩
    split
    · next hab =>
      refine List.pairwise_cons.mpr ⟨?_, h⟩
      intro x hx
      rcases List.mem_cons.mp hx with rfl | hx
      · exact hab
      · exact htrans a b x hab (hb x hx)
    · next hab =>
      refine List.pairwise_cons.mpr ⟨?_, ih hbs⟩
      intro x hx
      rcases (mem_insertDesc le a x bs).mp hx with hxa | hx
      · rw [hxa]
        exact htot a b (by simpa using hab)
      · exact hb x hx

theorem pairwise_sortDesc {α : Type} (le : α → α → Bool)
    (htrans : ∀ a b c, le a b = true → le b c = true → le a c = true)
    (htot : ∀ a b, le a b = false → le b a = true) (l : List α) :
    (sortDesc le l).Pairwise fun x y => le x y = true := by
  induction l with
  | nil => simp [sortDesc]
  | cons a as ih => exact pairwise_insertDesc le htrans htot a _ ih

theorem nlargestLE_trans (a b c : Nat × CommentRec) :
    nlargestLE a b = true → nlargestLE b c = true → nlargestLE a c = true := by
  simp only [nlargestLE, decide_eq_true_eq]
  omega

theorem nlargestLE_tot (a b : Nat × CommentRec) :
    nlargestLE a b = false → nlargestLE b a = true := by
  simp only [nlargestLE, decide_eq_false_iff_not, decide_eq_true_eq]
  omega

theorem enum_fst_pairwise {α : Type} (l : List α) :
    l.enum.Pairwise fun a b => a.1 ≠ b.1 := by
  have h : (l.enum.map Prod.fst).Nodup := by
    rw [List.enum_eq_enumFrom, List.enumFrom_map_fst]
    exact List.nodup_range' _ _
  exact List.pairwise_map.mp h

theorem enum_snd_mem {α : Type} {q : Nat × α} {l : List α}
    (h : q ∈ l.enum) : q.2 ∈ l := by
  have h2 : q.2 ∈ l.enum.map Prod.snd := List.mem_map_of_mem Prod.snd h
  rwa [List.enum_eq_enumFrom, List.enumFrom_map_snd] at h2

theorem mem_nlargest_mem_enum {n : Nat} {records : List CommentRec}
    {x : Nat × CommentRec} (h : x ∈ nlargestByLikes n records.enum) :
    x ∈ records.enum :=
  (sortDesc_perm nlargestLE records.enum).mem_iff.mp
    ((List.take_sublist _ _).mem h)

/-- C6: for a nonempty collection and any `top_n`, the top-liked section
renders `min top_n (number of records)` entries; each entry's identifier
points back at its record in the input; the entries are ordered by strictly
descending likes with ties in ascending original input position; and the
selection is the top of the input — every input record NOT rendered (its
1-based position appears as no entry's identifier) either has strictly fewer
likes than every rendered entry, or ties with it and sits at a later input
position (the stable boundary selection of `nlargest` with
`keep='first'`). -/
theorem top_liked_descending_stable (records : List CommentRec) (n : Nat)
    (h : records ≠ []) :
    ∃ entries, analyse_most_liked_comments (some records) n = some entries ∧
      entries.length = min n records.length ∧
      (∀ e ∈ entries, records[e.2.1 - 1]? = some e.2.2) ∧
      (entries.Pairwise fun a b =>
        b.2.2.likes < a.2.2.likes ∨
          (a.2.2.likes = b.2.2.likes ∧ a.2.1 < b.2.1)) ∧
      ∀ q ∈ records.enum, (∀ e ∈ entries, e.2.1 ≠ q.1 + 1) →
        ∀ e ∈ entries,
          q.2.likes < e.2.2.likes ∨
            (e.2.2.likes = q.2.likes ∧ e.2.1 < q.1 + 1) := by
  have hne : records.isEmpty = false := by
    cases records with
    | nil => exact absurd rfl h
    | cons c cs => rfl
  have hsorted : (sortDesc nlargestLE records.enum).Pairwise
      fun a b => nlargestLE a b = true :=
    pairwise_sortDesc nlargestLE nlargestLE_trans nlargestLE_tot _
  have hnodup : (sortDesc nlargestLE records.enum).Pairwise
      fun a b => a.1 ≠ b.1 :=
    ((sortDesc_perm nlargestLE records.enum).pairwise_iff
      fun hab => (hab ∘ Eq.symm)).mpr (enum_fst_pairwise records)
  refine ⟨(nlargestByLikes n records.enum).enum.map
      fun q => (q.1 + 1, q.2.1 + 1, q.2.2), ?_, ?_, ?_, ?_, ?_⟩
  · simp [analyse_most_liked_comments, hne]
  · rw [List.length_map, List.enum_length, nlargestByLikes,
      List.length_take]
    have : (sortDesc nlargestLE records.enum).length = records.enum.length :=
      (sortDesc_perm nlargestLE records.enum).length_eq
    rw [this, List.enum_length]
  · intro e he
    obtain ⟨q, hq, rfl⟩ := List.mem_map.mp he
    have hq3 : q.2 ∈ records.enum := mem_nlargest_mem_enum (enum_snd_mem hq)
    have hget := List.mem_enum_iff_getElem?.mp hq3
    simpa using hget
  · rw [List.pairwise_map]
    have htake : (nlargestByLikes n records.enum).Pairwise
        fun a b => nlargestLE a b = true ∧ a.1 ≠ b.1 :=
      (hsorted.and hnodup).sublist (List.take_sublist _ _)
    have henum : (nlargestByLikes n records.enum).enum.Pairwise
        fun q r => nlargestLE q.2 r.2 = true ∧ q.2.1 ≠ r.2.1 := by
      have h1 : ((nlargestByLikes n records.enum).enum.map
          Prod.snd).Pairwise fun a b => nlargestLE a b = true ∧ a.1 ≠ b.1 := by
        rw [List.enum_eq_enumFrom, List.enumFrom_map_snd]
        exact htake
      exact List.pairwise_map.mp h1
    refine henum.imp ?_
    intro q r hqr
    obtain ⟨hle, hne2⟩ := hqr
    rw [nlargestLE, decide_eq_true_eq] at hle
    rcases hle with hlt | ⟨heq, hle2⟩
    · exact Or.inl hlt
    · refine Or.inr ⟨heq, ?_⟩
      show q.2.1 + 1 < r.2.1 + 1
      omega
  · intro q hq hnot e he
    obtain ⟨q', hq', rfl⟩ := List.mem_map.mp he
    have hq'top : q'.2 ∈ nlargestByLikes n records.enum := enum_snd_mem hq'
    have hqS : q ∈ sortDesc nlargestLE records.enum :=
      (sortDesc_perm nlargestLE records.enum).mem_iff.mpr hq
    have hqnottake : q ∉ nlargestByLikes n records.enum := by
      intro hin
      obtain ⟨i, hi, hgi⟩ := List.getElem_of_mem hin
      have hienum : (i, q) ∈ (nlargestByLikes n records.enum).enum := by
        rw [List.mem_enum_iff_getElem?]
        simpa [hgi] using List.getElem?_eq_getElem hi
      have hmem : ((i : Nat) + 1, q.1 + 1, q.2) ∈
          (nlargestByLikes n records.enum).enum.map
            fun p => (p.1 + 1, p.2.1 + 1, p.2.2) :=
        List.mem_map_of_mem _ hienum
      exact hnot _ hmem rfl
    have hqdrop : q ∈ (sortDesc nlargestLE records.enum).drop n := by
      have hsplit :=
        List.take_append_drop n (sortDesc nlargestLE records.enum)
      rw [← hsplit] at hqS
      rcases List.mem_append.mp hqS with hin | hin
      · exact absurd hin hqnottake
      · exact hin
    have hcross : ∀ a ∈ (sortDesc nlargestLE records.enum).take n,
        ∀ b ∈ (sortDesc nlargestLE records.enum).drop n,
          nlargestLE a b = true ∧ a.1 ≠ b.1 := by
      have hS := hsorted.and hnodup
      rw [← List.take_append_drop n (sortDesc nlargestLE records.enum)] at hS
      exact (List.pairwise_append.mp hS).2.2
    obtain ⟨hle, hnefst⟩ := hcross q'.2 hq'top q hqdrop
    rw [nlargestLE, decide_eq_true_eq] at hle
    rcases hle with hlt | ⟨heq, hle2⟩
    · exact Or.inl hlt
    · refine Or.inr ⟨heq, ?_⟩
      show q'.2.1 + 1 < q.1 + 1
      omega

def mkRec (author : String) (likes : Nat) : CommentRec :=
  { video_id := "v", author := author, text := author,
    cleaned_text := author, likes := likes,
    published_at := "2024-01-01T00:00:00Z", sentiment := "question" }

/-- Four records with likes `[5, 10, 10, 3]`. -/
def recsTop : List CommentRec :=
  [mkRec "a" 5, mkRec "b" 10, mkRec "c" 10, mkRec "d" 3]

/-- `top_liked_descending_stable` instantiated at likes `[5, 10, 10, 3]`,
with `top_n = 2` exercising a real selection: the rendered order of
(likes, identifier) is `[(10, 2), (10, 3)]` — the two maximal records, in
their original relative order — and at `top_n = 10` the full rendering is
`[(10, 2), (10, 3), (5, 1), (3, 4)]`: descending likes, the two `10`s in
their original relative order. -/
theorem top_liked_descending_stable_witness :
    (recsTop ≠ []) ∧
      (∃ entries,
        analyse_most_liked_comments (some recsTop) 2 = some entries ∧
          entries.length = min 2 recsTop.length ∧
          (∀ e ∈ entries, recsTop[e.2.1 - 1]? = some e.2.2) ∧
          (entries.Pairwise fun a b =>
            b.2.2.likes < a.2.2.likes ∨
              (a.2.2.likes = b.2.2.likes ∧ a.2.1 < b.2.1)) ∧
          ∀ q ∈ recsTop.enum, (∀ e ∈ entries, e.2.1 ≠ q.1 + 1) →
            ∀ e ∈ entries,
              q.2.likes < e.2.2.likes ∨
                (e.2.2.likes = q.2.likes ∧ e.2.1 < q.1 + 1)) ∧
      (analyse_most_liked_comments (some recsTop) 2).map
          (List.map fun e => (e.2.2.likes, e.2.1))
        = some [(10, 2), (10, 3)] ∧
      (analyse_most_liked_comments (some recsTop) 10).map
          (List.map fun e => (e.2.2.likes, e.2.1))
        = some [(10, 2), (10, 3), (5, 1), (3, 4)] :=
  ⟨by decide, top_liked_descending_stable recsTop 2 (by decide), by decide,
    by decide⟩

def recA : CommentRec := mkRec "a" 1

def recB : CommentRec := mkRec "b" 5

/-- Two records with likes `[1, 5]`: sorting reverses them. -/
def recsId : List CommentRec := [recA, recB]

/-- C7 as stated is false on the code: at the two-record input with likes
`[1, 5]` the entry at sorted position 1 (rank `#1`) renders identifier
`ID:2`, not `1` — the identifier is not the position within the sorted top-N
slice. -/
theorem top_liked_identifier_counterexample :
    analyse_most_liked_comments (some recsId) 10
        = some [(1, 2, recB), (2, 1, recA)] ∧
      ¬ ∀ entries,
          analyse_most_liked_comments (some recsId) 10 = some entries →
            ∀ e ∈ entries, e.2.1 = e.1 :=
  ⟨by decide, fun hall => by
    have h2 := hall [(1, 2, recB), (2, 1, recA)] (by decide)
      (1, 2, recB) (by simp)
    simp at h2⟩

/-- C7 amended: each rendered entry's identifier `ID:{idx + 1}` equals the
record's 1-based position in the original input order — a stable per-record
identifier — while the 1-based position within the sorted top-N slice is
rendered separately as the rank `#{i}`. -/
theorem top_liked_identifier_is_input_position (records : List CommentRec)
    (n : Nat) (entries : List (Nat × Nat × CommentRec))
    (h : analyse_most_liked_comments (some records) n = some entries) :
    ∀ q ∈ entries.enum,
      q.2.1 = q.1 + 1 ∧ records[q.2.2.1 - 1]? = some q.2.2.2 := by
  have hne : records.isEmpty = false := by
    cases records with
    | nil => simp [analyse_most_liked_comments] at h
    | cons c cs => rfl
  have hentries : entries = (nlargestByLikes n records.enum).enum.map
      fun q => (q.1 + 1, q.2.1 + 1, q.2.2) := by
    simp only [analyse_most_liked_comments, hne, Bool.false_eq_true,
      if_false, Option.some.injEq] at h
    exact h.symm
  subst hentries
  intro q hq
  rw [List.mem_enum_iff_getElem?, List.getElem?_map, List.getElem?_enum] at hq
  cases hx : (nlargestByLikes n records.enum)[q.1]? with
  | none => rw [hx] at hq; simp at hq
  | some x =>
    rw [hx] at hq
    have hq2 : (q.1 + 1, x.1 + 1, x.2) = q.2 := by simpa using hq
    have hmem : x ∈ records.enum :=
      mem_nlargest_mem_enum (List.getElem?_mem hx)
    have hget := List.mem_enum_iff_getElem?.mp hmem
    rw [← hq2]
    exact ⟨rfl, by simpa using hget⟩

/-- `top_liked_identifier_is_input_position` instantiated at the `[1, 5]`
input and its first rendered entry `(rank 1, ID 2, recB)`: the identifier 2
points back at the original position of `recB`. -/
theorem top_liked_identifier_is_input_position_witness :
    (1 : Nat) = 0 + 1 ∧ recsId[(2 : Nat) - 1]? = some recB :=
  top_liked_identifier_is_input_position recsId 10
    [(1, 2, recB), (2, 1, recA)] (by decide) (0, 1, 2, recB) (by decide)

end YTC
